import Mathlib

/-!
# Verification of the APA-to-LaTeX citation converter

A shallow embedding of `citation_converter.py` (the single source module of
the repository).  Text is modelled as `List Char` over the ASCII fragment:
the Python regex classes `\d`, `\s`, `\w`, `[a-z]`, `[A-Z]` and the string
methods `lower()`, `strip()`, `split()` are Unicode-aware in Python but
coincide with Lean's ASCII `Char.isDigit` / `Char.isWhitespace` /
alphanumeric predicates on ASCII text; the two curly-quote characters that
the source handles explicitly are modelled explicitly.  Reference lines are
split on the newline character (Python `splitlines` also splits on some
rarer terminators; blank lines are skipped by the scanner either way).

Python's regex searches are embedded as executable scanners whose
leftmost-match and lazy/greedy backtracking behaviour is reproduced for the
concrete patterns used by the source.  Exceptions cannot arise in the
embedding: all functions are total, which embeds the source's guarantee
(enforced by its catch-all handlers) that parsing and rewriting never throw.

The external bibliography-parsing collaborator (`bibtexparser`) is a
parameter: `apa2tex` takes a `parseBib` function returning either an error
string or the parsed list of entries.  Of a parsed entry the source reads
only the `ID` and the optional `title` field, which is how `BibEntry` is
modelled.  The running conversion counter is internal to the source
(`conversion_count`); the model exposes it as the `count` field of
`ConversionResult` so that claims about it can be stated.
-/

namespace CitConv

/-- Text is a list of characters (ASCII fragment; see the header comment). -/
abbrev Str := List Char

/-- The plain apostrophe character. -/
def apos : Char := Char.ofNat 39

/-- The right single curly quote used in `re.sub(r"[’‘]", ...)`. -/
def rsq : Char := Char.ofNat 0x2019

/-- The left single curly quote used in `re.sub(r"[’‘]", ...)`. -/
def lsq : Char := Char.ofNat 0x2018

/-- Left brace character (stripped from BibTeX titles). -/
def lbrace : Char := Char.ofNat 123

/-- Right brace character (stripped from BibTeX titles). -/
def rbrace : Char := Char.ofNat 125

/-- Python's `\w` on ASCII: alphanumeric or underscore. -/
def isWordChar (c : Char) : Bool := c.isAlphanum || c == '_'

/-- Drop leading whitespace: the left half of Python's `str.strip()`. -/
def trimLeft (s : Str) : Str := s.dropWhile Char.isWhitespace

/-- Drop trailing whitespace: the right half of Python's `str.strip()`. -/
def trimRight (s : Str) : Str := (s.reverse.dropWhile Char.isWhitespace).reverse

/-- Python's `str.strip()`. -/
def trim (s : Str) : Str := trimRight (trimLeft s)

/-- `re.sub(r"\s+", " ", s)`: each maximal run of whitespace becomes one space. -/
def collapseWS : Str → Str
  | [] => []
  | [c] => if c.isWhitespace then [' '] else [c]
  | c :: d :: rest =>
    if c.isWhitespace && d.isWhitespace then collapseWS (d :: rest)
    else (if c.isWhitespace then ' ' else c) :: collapseWS (d :: rest)

/-- Worker for `splitWS`: `acc` is the current word, reversed. -/
def splitWSAux (acc : Str) : Str → List Str
  | [] => if acc.isEmpty then [] else [acc.reverse]
  | c :: rest =>
    if c.isWhitespace then
      if acc.isEmpty then splitWSAux [] rest
      else acc.reverse :: splitWSAux [] rest
    else splitWSAux (c :: acc) rest

/-- Python's `str.split()` (split on whitespace runs, dropping empties). -/
def splitWS (s : Str) : List Str := splitWSAux [] s

/-- `s.split(sep)[0]` for a one-character separator: text before its first
occurrence, the whole string when absent. -/
def takeUntilChar (sep : Char) (s : Str) : Str := s.takeWhile (fun c => c != sep)

/-- `s.split(pat)[0]` for a multi-character separator. -/
def takeUntilSub (pat : Str) : Str → Str
  | [] => []
  | c :: rest =>
    if pat.isPrefixOf (c :: rest) then [] else c :: takeUntilSub pat rest

/-- `pat in s`: substring containment. -/
def containsSub (pat : Str) : Str → Bool
  | [] => pat.isEmpty
  | c :: rest => pat.isPrefixOf (c :: rest) || containsSub pat rest

/-- `s.split(sep)` for a one-character separator, keeping empty pieces. -/
def splitOnChar (sep : Char) : Str → List Str
  | [] => [[]]
  | c :: rest =>
    if c == sep then [] :: splitOnChar sep rest
    else
      match splitOnChar sep rest with
      | [] => [[c]]
      | t :: ts => (c :: t) :: ts

/-- `s.replace("\\&", "&")`: left-to-right, non-overlapping. -/
def replaceAmp : Str → Str
  | [] => []
  | [c] => [c]
  | c1 :: c2 :: rest =>
    if c1 = '\\' ∧ c2 = '&' then '&' :: replaceAmp rest
    else c1 :: replaceAmp (c2 :: rest)

/-- Case-insensitive literal-prefix match (Python `re.IGNORECASE` on ASCII):
returns the remainder after the pattern, or `none`. -/
def dropPrefixCI : Str → Str → Option Str
  | [], s => some s
  | _ :: _, [] => none
  | p :: ps, c :: cs =>
    if p.toLower = c.toLower then dropPrefixCI ps cs else none

/-- The character step of `re.sub(r"[’‘]", "'", title)`. -/
def curlyToApos (c : Char) : Char := if c == rsq || c == lsq then apos else c

/-- `normalize_title` (source lines 5–13): lower-case, map curly single
quotes to the apostrophe, replace every character that is neither a word
character nor whitespace by a space, collapse whitespace runs, strip. -/
def normalize_title (title : Str) : Str :=
  if title.isEmpty then []
  else
    let t1 := title.map Char.toLower
    let t2 := t1.map curlyToApos
    let t3 := t2.map (fun c => if isWordChar c || c.isWhitespace then c else ' ')
    trim (collapseWS t3)

/-- `normalize_author` (source lines 89–99): un-escape `\&`, lower-case,
delete every character outside `[a-z\s&]`, collapse whitespace, strip. -/
def normalize_author (author : Str) : Str :=
  if author.isEmpty then []
  else
    let a1 := replaceAmp author
    let a2 := a1.map Char.toLower
    let a3 := a2.filter (fun c => c.isLower || c.isWhitespace || c == '&')
    trim (collapseWS a3)

/-- Consume the optional trailing period of `\((\d{4}[a-z]?)\)\.?`
(`year_match.end()` lies after the period when one is present). -/
def stripDot : Str → Str
  | '.' :: r => r
  | r => r

/-- Match `\((\d{4}[a-z]?)\)\.?` at the head of the text: returns the
captured year and the remainder after the match end.  The greedy `[a-z]?`
is deterministic: a lowercase letter and `)` cannot coincide. -/
def matchYearHere : Str → Option (Str × Str)
  | o :: a :: b :: c :: d :: rest =>
    if o = '(' ∧ a.isDigit ∧ b.isDigit ∧ c.isDigit ∧ d.isDigit then
      match rest with
      | x :: rest2 =>
        if x = ')' then some ([a, b, c, d], stripDot rest2)
        else
          match rest2 with
          | y :: rest3 =>
            if x.isLower ∧ y = ')' then some ([a, b, c, d, x], stripDot rest3)
            else none
          | [] => none
      | [] => none
    else none
  | _ => none

/-- `re.search(r"\((\d{4}[a-z]?)\)\.?", s)`: leftmost match, returning
(text before the match, captured year, text after the match end). -/
def findYear : Str → Option (Str × Str × Str)
  | [] => none
  | c :: rest =>
    match matchYearHere (c :: rest) with
    | some (y, post) => some ([], y, post)
    | none =>
      match findYear rest with
      | some (pre, y, post) => some (c :: pre, y, post)
      | none => none

/-- Whether the text contains a parenthesized 4-digit-year pattern
(`re.search(r"\((\d{4}[a-z]?)\)\.?", s)` succeeds). -/
def hasYearParen (s : Str) : Bool := (findYear s).isSome

/-- The parse result of one reference line: the source returns the list
`[authors, year, title]`, always of length 3. -/
structure ParsedRef where
  authors : Str
  year : Str
  title : Str
deriving DecidableEq

/-- The sentinel triple `['Author Not Found', 'Year Not Found', 'Title Not Found']`. -/
def sentinelRef : ParsedRef :=
  { authors := "Author Not Found".toList
    year := "Year Not Found".toList
    title := "Title Not Found".toList }

/-- The nested `parse_reference` (source lines 101–120), the one every live
caller uses: un-escape `\&`, find the first `(YYYY[a-z]?)` pattern, split
authors / year / title around it; the title is cut at the first period,
stripped, and normalized.  No pattern found gives the sentinel triple. -/
def parse_reference (reference_line : Str) : ParsedRef :=
  if reference_line.isEmpty then sentinelRef
  else
    match findYear (replaceAmp reference_line) with
    | none => sentinelRef
    | some (pre, year, post) =>
      { authors := trim pre
        year := year
        title := normalize_title (trim (takeUntilChar '.' post)) }

/-- The module-level `parse_reference` (source lines 15–32), shadowed inside
`apa2tex` by the nested version: identical except that it does not
un-escape `\&`. -/
def parse_reference_module (reference_line : Str) : ParsedRef :=
  if reference_line.isEmpty then sentinelRef
  else
    match findYear reference_line with
    | none => sentinelRef
    | some (pre, year, post) =>
      { authors := trim pre
        year := year
        title := normalize_title (trim (takeUntilChar '.' post)) }

/-- A bibliography entry as the source consumes it: `entry['ID']` and the
optional `entry['title']` field (entries without a title are skipped). -/
structure BibEntry where
  ID : Str
  title : Option Str
deriving DecidableEq

/-- `title.replace('{', '').replace('}', '')`. -/
def stripBraces (s : Str) : Str := s.filter (fun c => c != lbrace && c != rbrace)

/-- The scan inside `get_reference_key`: first entry, in stored order, whose
brace-stripped normalized title equals the target. -/
def lookupTitle : List BibEntry → Str → Option Str
  | [], _ => none
  | e :: es, target =>
    match e.title with
    | none => lookupTitle es target
    | some t =>
      if normalize_title (stripBraces t) = target then some e.ID
      else lookupTitle es target

/-- The nested `get_reference_key` (source lines 122–142): parse the
reference line, then scan the bibliography entries for a title match. -/
def get_reference_key (reference_line : Str) (entries : List BibEntry) : Option Str :=
  if reference_line.isEmpty then none
  else lookupTitle entries (parse_reference reference_line).title

/-- `ref_authors.split(',')[0].split('&')[0].split(' and ')[0].strip()`
(source line 165). -/
def firstRefAuthor (ref_authors : Str) : Str :=
  trim (takeUntilSub " and ".toList (takeUntilChar '&' (takeUntilChar ',' ref_authors)))

/-- The matching tiers of `get_reference_line_by_author_year` (source lines
169–180), an `if`/`elif` chain: exact equality of the normalized names;
otherwise, when both have whitespace tokens, equality of their last tokens;
otherwise containment of any token of the reference author in the target. -/
def match_found (frn tgt : Str) : Bool :=
  if tgt.isEmpty then false
  else if frn = tgt then true
  else if splitWS frn ≠ [] ∧ splitWS tgt ≠ [] then
    (splitWS frn).getLastD [] = (splitWS tgt).getLastD []
  else (splitWS frn).any (fun term => containsSub term tgt)

/-- The line scan of `get_reference_line_by_author_year`: strip each line,
skip blanks, parse, extract and normalize the line's first author, and
return the first (stripped) line whose author matches and whose year equals
the query exactly. -/
def scanRefLines (tgt year_part : Str) : List Str → Option Str
  | [] => none
  | l :: ls =>
    if (trim l).isEmpty then scanRefLines tgt year_part ls
    else if match_found (normalize_author (firstRefAuthor (parse_reference (trim l)).authors)) tgt
            ∧ (parse_reference (trim l)).year = year_part then some (trim l)
    else scanRefLines tgt year_part ls

/-- The nested `get_reference_line_by_author_year` (source lines 144–185). -/
def get_reference_line_by_author_year (references target_author year_part : Str) : Option Str :=
  if references.isEmpty || target_author.isEmpty || year_part.isEmpty then none
  else scanRefLines (normalize_author target_author) year_part (splitOnChar '\n' references)

/-- `re.search(r"\d{4}[a-z]?", s)` succeeds iff four consecutive digits occur. -/
def fourDigitsHere : Str → Bool
  | a :: b :: c :: d :: _ => a.isDigit && b.isDigit && c.isDigit && d.isDigit
  | _ => false

/-- Whether the text contains four consecutive digits (source line 194). -/
def hasFourDigits : Str → Bool
  | [] => false
  | c :: rest => fourDigitsHere (c :: rest) || hasFourDigits rest

/-- `re.search(r",\s*\d{4}[a-z]?$", citation)`: the text ends with a comma,
optional whitespace, four digits and an optional lowercase letter. -/
def endsWithCommaYear (s : Str) : Bool :=
  let check4 : Str → Bool := fun r =>
    match r with
    | d4 :: d3 :: d2 :: d1 :: rest =>
      d4.isDigit && d3.isDigit && d2.isDigit && d1.isDigit &&
      (match rest.dropWhile Char.isWhitespace with
       | ',' :: _ => true
       | _ => false)
    | _ => false
  match s.reverse with
  | [] => false
  | l :: rest => (l.isLower && check4 rest) || check4 (l :: rest)

/-- `re.search(r"\d{4}[a-z]?\)$", citation)`: the text ends with four
digits, an optional lowercase letter, and a closing parenthesis. -/
def endsWithYearParen (s : Str) : Bool :=
  match s.reverse with
  | ')' :: x1 :: x2 :: x3 :: x4 :: rest =>
    if x1.isLower then
      x2.isDigit && x3.isDigit && x4.isDigit &&
      (match rest with | d :: _ => d.isDigit | [] => false)
    else x1.isDigit && x2.isDigit && x3.isDigit && x4.isDigit
  | _ => false

/-- Match `Section\s+\d+` (case-insensitively) at the head of the text. -/
def sectionHere (s : Str) : Bool :=
  match dropPrefixCI "section".toList s with
  | none => false
  | some rest =>
    !(rest.takeWhile Char.isWhitespace).isEmpty &&
    (match rest.dropWhile Char.isWhitespace with
     | d :: _ => d.isDigit
     | [] => false)

/-- `re.search(r"Section\s+\d+", citation, re.IGNORECASE)` (source line 207;
here `re.IGNORECASE` really is passed as the flags argument). -/
def hasSectionNum : Str → Bool
  | [] => false
  | c :: rest => sectionHere (c :: rest) || hasSectionNum rest

/-- Peel `(\d{4}[a-z]?)$` off a REVERSED string: returns the year in normal
order and the reversed remainder. -/
def peelYearRev : Str → Option (Str × Str)
  | x0 :: x1 :: x2 :: x3 :: x4 :: rest =>
    if x0.isLower && x1.isDigit && x2.isDigit && x3.isDigit && x4.isDigit then
      some ([x4, x3, x2, x1, x0], rest)
    else if x0.isDigit && x1.isDigit && x2.isDigit && x3.isDigit then
      some ([x3, x2, x1, x0], x4 :: rest)
    else none
  | [x0, x1, x2, x3] =>
    if x0.isDigit && x1.isDigit && x2.isDigit && x3.isDigit then
      some ([x3, x2, x1, x0], [])
    else none
  | _ => none

/-- `re.match(r"^(.*?[^,])\s*,\s*(\d{4}[a-z]?)$", citation)`: the year sits
at the end, preceded (across optional whitespace) by a comma; group 1 is
everything before that comma, must be nonempty, may not end in a comma
unless trailing whitespace follows it, and (being built from lazy `.*?`)
may not contain a newline except as its final character.  Returns
(`group(1).strip()`, `group(2)`), which is what the caller uses. -/
def matchACY (s : Str) : Option (Str × Str) :=
  match peelYearRev s.reverse with
  | none => none
  | some (year, rest) =>
    match rest.dropWhile Char.isWhitespace with
    | ',' :: segRev =>
      let seg := segRev.reverse
      if seg.isEmpty then none
      else
        let core := trimRight seg
        if core.isEmpty then some (trim seg, year)
        else if (∀ c ∈ core.dropLast, c ≠ '\n') ∧
                (core.getLastD ' ' ≠ ',' ∨ core.length < seg.length) then
          some (trim seg, year)
        else none
    | _ => none

/-- `re.match(r"^([^(]+?)\s*\((\d{4}[a-z]?)\)$", citation)`: nonempty text
without `(`, then optional whitespace, then exactly `(YYYY[a-z]?)` at the
very end.  Returns (`group(1).strip()`, `group(2)`). -/
def matchAPY (s : Str) : Option (Str × Str) :=
  let pre := s.takeWhile (fun c => c != '(')
  if pre.isEmpty then none
  else
    match s.dropWhile (fun c => c != '(') with
    | '(' :: tail =>
      match tail with
      | [a, b, c, d, ')'] =>
        if a.isDigit && b.isDigit && c.isDigit && d.isDigit then
          some (trim pre, [a, b, c, d])
        else none
      | [a, b, c, d, e, ')'] =>
        if a.isDigit && b.isDigit && c.isDigit && d.isDigit && e.isLower then
          some (trim pre, [a, b, c, d, e])
        else none
      | _ => none
    | _ => none

/-- `re.split(r", | & | and ", author_part)[0]`: the text before the first
occurrence of any of the three separators (tried in the alternation's order
at each position), or the whole string when none occurs.  The source only
ever consumes element 0 of the split (`authors[0]`; the list is never
empty, as `re.split` returns at least one piece), so only that piece is
embedded. -/
def firstAuthorPiece : Str → Str
  | [] => []
  | c :: rest =>
    if ", ".toList.isPrefixOf (c :: rest) then []
    else if " & ".toList.isPrefixOf (c :: rest) then []
    else if " and ".toList.isPrefixOf (c :: rest) then []
    else c :: firstAuthorPiece rest

/-- First-author extraction shared by `process_citation` (lines 222–236) and
`process_textual_citation` (lines 286–300), which repeat it verbatim:
corporate authors containing `&` or ` and ` are kept whole; with `et al.`
the text before it is cut at the first comma and reduced to its last
whitespace token; otherwise the first piece of the author split is cut at
the first comma and reduced to its last whitespace token. -/
def extractFirstAuthor (author_part : Str) : Str :=
  if author_part.contains '&' || containsSub " and ".toList author_part then
    author_part
  else if containsSub "et al.".toList author_part then
    let fa := trim (takeUntilChar ',' (takeUntilSub "et al.".toList author_part))
    if fa.contains ' ' then (splitWS fa).getLastD [] else fa
  else
    let fa := trim (takeUntilChar ',' (firstAuthorPiece author_part))
    if fa.contains ' ' then (splitWS fa).getLastD [] else fa

/-- `re.sub(r"^(e\.g\.,|i\.e\.,)\s*", '', group_content, re.IGNORECASE)`
(source line 197).  `re.IGNORECASE` is passed positionally as the COUNT
argument of `re.sub`, not as flags, so the match is case-sensitive; the
anchored pattern fires at most once either way. -/
def stripEgPrefix (s : Str) : Str :=
  if "e.g.,".toList.isPrefixOf s then (s.drop 5).dropWhile Char.isWhitespace
  else if "i.e.,".toList.isPrefixOf s then (s.drop 5).dropWhile Char.isWhitespace
  else s

/-- `f"\\citep{{{','.join(keys)}}}"`. -/
def citepMacro (keys : List Str) : Str :=
  "\\citep".toList ++ [lbrace] ++ List.intercalate [','] keys ++ [rbrace]

/-- `f"(e.g., \\citep{{{','.join(keys)}}})"`, the branch restoring the
"e.g., " prefix. -/
def egMacro (keys : List Str) : Str :=
  "(e.g., \\citep".toList ++ [lbrace] ++ List.intercalate [','] keys ++ [rbrace] ++ [')']

/-- `f"\\citet{{{key}}}"`. -/
def citetMacro (key : Str) : Str :=
  "\\citet".toList ++ [lbrace] ++ key ++ [rbrace]

/-- Resolution of one semicolon-separated sub-citation inside
`process_citation`'s loop (source lines 201–250): skip pieces without a
trailing year shape or with a `Section N` pattern, un-escape `\&`, match
one of the two citation shapes, extract and normalize the first author,
find the reference line, and resolve it to a bibliography key. -/
def resolveSub (refs : Str) (entries : List BibEntry) (citation : Str) : Option Str :=
  if !(endsWithCommaYear citation || endsWithYearParen citation) then none
  else if hasSectionNum citation then none
  else
    let cit := replaceAmp citation
    match (matchACY cit).orElse (fun _ => matchAPY cit) with
    | none => none
    | some (author_part, year_part) =>
      let fa := extractFirstAuthor author_part
      if fa.isEmpty then none
      else
        match get_reference_line_by_author_year refs (normalize_author fa) year_part with
        | none => none
        | some line => get_reference_key line entries

/-- The loop body of `process_citation`: append the resolved key and bump
the conversion counter, or leave the accumulator unchanged. -/
def citStep (refs : Str) (entries : List BibEntry) (acc : List Str × Nat) (cit : Str) :
    List Str × Nat :=
  match resolveSub refs entries cit with
  | some k => (acc.1 ++ [k], acc.2 + 1)
  | none => acc

/-- `process_citation` (source lines 187–261), the parenthetical rewrite
callback: `original` is `match.group(0)`, `group_content` is
`match.group(1)`.  Returns the replacement text and the number added to
`conversion_count`. -/
def process_citation (refs : Str) (entries : List BibEntry)
    (original group_content : Str) : Str × Nat :=
  if !hasFourDigits group_content then (original, 0)
  else
    let citations := (List.splitOn ';' (stripEgPrefix group_content)).map trim
    let r := citations.foldl (citStep refs entries) ([], 0)
    if r.1.isEmpty then (original, r.2)
    else if containsSub "e.g.".toList (original.map Char.toLower) then (egMacro r.1, r.2)
    else (citepMacro r.1, r.2)

/-- The alternatives of the discourse-marker stoplist regex (source lines
271–281), in the alternation's order; `aligns? with` expands to its greedy
order ("aligns with" before "align with") and the trailing `|)` contributes
the final empty alternative, which always matches. -/
def discourseAlts : List Str :=
  ["For instance".toList, "Similarly".toList, "Building upon".toList,
   "For example".toList, "In contrast".toList, "Additionally".toList,
   "Specifically".toList, "following".toList, "adopting".toList,
   "However".toList, "Our findings".toList, "further".toList,
   "suggesting".toList, "aligns with".toList, "align with".toList,
   "Comparison with".toList, "In this".toList, "Contrary to".toList,
   "While".toList, "Finally".toList, "This robust test".toList,
   "This robustness test".toList, "informed by".toList,
   "This result".toList, "By replacing".toList, "By".toList,
   "UET, introduced by".toList, "noindent".toList,
   "This theory, as articulated by".toList, "as defined by".toList,
   "We adopt the methodology of".toList, "Following".toList,
   "However, our results".toList, "Our findings".toList,
   "Contrary to expectations".toList, []]

/-- `re.sub(r"^(...|),?\s*", '', authors_text, flags=re.IGNORECASE)`: the
first alternative (in order) that case-insensitively prefixes the text is
removed together with an optional comma and following whitespace; the empty
alternative guarantees a match, and the `^` anchor limits the substitution
to a single application at position 0. -/
def stripDiscourse (s : Str) : Str :=
  match discourseAlts.findSome? (fun alt => dropPrefixCI alt s) with
  | some (',' :: r) => r.dropWhile Char.isWhitespace
  | some r => r.dropWhile Char.isWhitespace
  | none => s

/-- `re.sub(r"^noindent\s+", '', authors_text, re.IGNORECASE)` (source line
284): as on line 197, `re.IGNORECASE` lands in the COUNT position, so the
match is case-sensitive. -/
def stripNoindent (s : Str) : Str :=
  if "noindent".toList.isPrefixOf s then
    let rest := s.drop 8
    if (rest.takeWhile Char.isWhitespace).isEmpty then s
    else rest.dropWhile Char.isWhitespace
  else s

/-- `process_textual_citation` (source lines 263–319), the narrative rewrite
callback: `original` is `match.group(0)`, `g1` is `match.group(1)` and
`year_text` is `match.group(2)`.  Un-escape and strip the author phrase,
remove a leading discourse marker and a stray `noindent`, extract the first
author, resolve through the reference list and the bibliography; on success
the whole matched span is replaced by `\citet{key}` and the counter is
incremented by 1, on any failure the original span is returned. -/
def process_textual_citation (refs : Str) (entries : List BibEntry)
    (original g1 year_text : Str) : Str × Nat :=
  let a1 := trim (stripDiscourse (trim (replaceAmp g1)))
  let a2 := stripNoindent a1
  let fa := extractFirstAuthor a2
  if fa.isEmpty then (original, 0)
  else
    match get_reference_line_by_author_year refs (normalize_author fa) year_text with
    | none => (original, 0)
    | some line =>
      match get_reference_key line entries with
      | some k => (citetMacro k, 1)
      | none => (original, 0)

/-- The character class `[A-Za-z\s,&]` of the narrative-citation pattern. -/
def isNarrBody (c : Char) : Bool := c.isAlpha || c.isWhitespace || c == ',' || c == '&'

/-- The tail `\s*\((\d{4}[a-z]?)\)` of the narrative pattern, matched at the
head of the text: returns (consumed whitespace, year, remainder after the
closing parenthesis). -/
def tryPlain (s : Str) : Option (Str × Str × Str) :=
  match s.dropWhile Char.isWhitespace with
  | o :: a :: b :: c :: d :: rest =>
    if o = '(' ∧ a.isDigit ∧ b.isDigit ∧ c.isDigit ∧ d.isDigit then
      match rest with
      | x :: rest2 =>
        if x = ')' then some (s.takeWhile Char.isWhitespace, [a, b, c, d], rest2)
        else
          match rest2 with
          | y :: rest3 =>
            if x.isLower ∧ y = ')' then
              some (s.takeWhile Char.isWhitespace, [a, b, c, d, x], rest3)
            else none
          | [] => none
      | [] => none
    else none
  | _ => none

/-- The group `(?:\s+et al\.?)` followed by the plain tail: at least one
whitespace character, the literal `et al`, a greedy optional period (forced,
since a period can continue neither `\s*` nor `\(`), then `\s*\(year\)`.
Returns (consumed et-al part, consumed whitespace, year, remainder). -/
def tryEtal (s : Str) : Option (Str × Str × Str × Str) :=
  if (s.takeWhile Char.isWhitespace).isEmpty then none
  else if "et al".toList.isPrefixOf (s.dropWhile Char.isWhitespace) then
    match (s.dropWhile Char.isWhitespace).drop 5 with
    | '.' :: r3 =>
      match tryPlain r3 with
      | some (ws2, y, rest) =>
        some (s.takeWhile Char.isWhitespace ++ "et al".toList ++ ['.'], ws2, y, rest)
      | none => none
    | r2 =>
      match tryPlain r2 with
      | some (ws2, y, rest) =>
        some (s.takeWhile Char.isWhitespace ++ "et al".toList, ws2, y, rest)
      | none => none
  else none

/-- The full tail after the lazy body: the greedy optional et-al group is
tried first, then the plain tail.  Returns (consumed part belonging to
group 1, consumed whitespace outside group 1, year, remainder). -/
def tryTail (s : Str) : Option (Str × Str × Str × Str) :=
  match tryEtal s with
  | some r => some r
  | none =>
    match tryPlain s with
    | some (ws, y, rest) => some ([], ws, y, rest)
    | none => none

/-- The lazy expansion of `[A-Za-z\s,&]+?`: grow the body one class
character at a time, trying the tail after each step; the first success
wins, as with a lazy quantifier.  `accRev` is the reversed text consumed so
far (the leading `[A-Z]` plus body).  Returns (group 1, whole matched span,
year, remainder). -/
def narrGrow (accRev : Str) (s : Str) : Option (Str × Str × Str × Str) :=
  match s with
  | [] => none
  | c :: rest =>
    if isNarrBody c then
      match tryTail rest with
      | some (ep, ws2, y, rst) =>
        let g1 := (c :: accRev).reverse ++ ep
        some (g1, g1 ++ ws2 ++ ['('] ++ y ++ [')'], y, rst)
      | none => narrGrow (c :: accRev) rest
    else none

/-- Attempt the narrative pattern
`([A-Z][A-Za-z\s,&]+?(?:\s+et al\.?)?)\s*\((\d{4}[a-z]?)\)` at the head of
the text: an uppercase letter, then the lazy body.  Returns (group 1,
matched span, year, remainder after the span). -/
def matchNarrAt : Str → Option (Str × Str × Str × Str)
  | [] => none
  | c :: rest => if c.isUpper then narrGrow [c] rest else none

/-- The narrative `re.sub` pass (source lines 323–327): scan positions left
to right, replace each leftmost match by the callback result, continue
after the original span.  Fuel bounds the recursion; each step consumes at
least one input character, so `input.length` fuel never runs out. -/
def reSubNarrF (refs : Str) (entries : List BibEntry) : Nat → Str → Str × Nat
  | 0, s => (s, 0)
  | _, [] => ([], 0)
  | fuel + 1, c :: rest =>
    match matchNarrAt (c :: rest) with
    | some (g1, span, y, rst) =>
      ((process_textual_citation refs entries span g1 y).1
         ++ (reSubNarrF refs entries fuel rst).1,
       (process_textual_citation refs entries span g1 y).2
         + (reSubNarrF refs entries fuel rst).2)
    | none =>
      (c :: (reSubNarrF refs entries fuel rest).1, (reSubNarrF refs entries fuel rest).2)

/-- The parenthetical `re.sub(r"\(([^)]+)\)", ...)` pass (source line 328):
a match is an opening parenthesis, one or more non-`)` characters, and a
closing parenthesis.  Group 1 is `rest.takeWhile (· != ')')`; the matched
span ends at the following `)` — the head of the non-empty
`rest.dropWhile (· != ')')` is necessarily `)` — and scanning resumes after
it (`.tail`).  When no match starts at this position the scan advances one
character. -/
def reSubParenF (refs : Str) (entries : List BibEntry) : Nat → Str → Str × Nat
  | 0, s => (s, 0)
  | _, [] => ([], 0)
  | fuel + 1, c :: rest =>
    if c = '(' ∧ rest.takeWhile (fun x => x != ')') ≠ [] ∧
        rest.dropWhile (fun x => x != ')') ≠ [] then
      ((process_citation refs entries
          ('(' :: rest.takeWhile (fun x => x != ')') ++ [')'])
          (rest.takeWhile (fun x => x != ')'))).1
        ++ (reSubParenF refs entries fuel (rest.dropWhile (fun x => x != ')')).tail).1,
       (process_citation refs entries
          ('(' :: rest.takeWhile (fun x => x != ')') ++ [')'])
          (rest.takeWhile (fun x => x != ')'))).2
        + (reSubParenF refs entries fuel (rest.dropWhile (fun x => x != ')')).tail).2)
    else
      (c :: (reSubParenF refs entries fuel rest).1, (reSubParenF refs entries fuel rest).2)

/-- `f"✅ Successfully converted {n} citations"`. -/
def successMsg (n : Nat) : Str :=
  "✅ Successfully converted ".toList ++ (Nat.repr n).toList ++ " citations".toList

/-- The warning inserted when nothing was converted. -/
def warnMsg : Str :=
  "⚠️ No citations were converted. Please check your input formats".toList

/-- The result of `apa2tex`: output text and messages as the source returns
them, plus the final value of the internal `conversion_count` (exposed so
that claims about the counter can be stated). -/
structure ConversionResult where
  output : Str
  messages : List Str
  count : Nat
deriving DecidableEq

/-- `apa2tex` (source lines 74–339).  Parsing the bibliography text is
delegated to the external `bibtexparser` collaborator, modelled by the
`parseBib` parameter; a parse failure yields the original document and the
single error message.  Otherwise the narrative pass runs first, then the
parenthetical pass, and one summary message is produced.  The callbacks
never append to `messages`, so on the success path the summary is the only
message.  All functions are total, so the source's catch-all handler for
exceptions during the passes (lines 338–339) has no counterpart here. -/
def apa2tex (parseBib : Str → Except Str (List BibEntry))
    (input_refs input_tex bib_text : Str) : ConversionResult :=
  match parseBib bib_text with
  | .error e =>
    { output := input_tex
      messages := ["Error parsing BibTeX file: ".toList ++ e]
      count := 0 }
  | .ok entries =>
    let p1 := reSubNarrF input_refs entries input_tex.length input_tex
    let p2 := reSubParenF input_refs entries p1.1.length p1.1
    let n := p1.2 + p2.2
    { output := p2.1
      messages := [if 0 < n then successMsg n else warnMsg]
      count := n }

/-- `main` (source lines 341–349): returns the output text and the message
list (serialized to JSON by the source; the list itself here).  Totality of
the embedding reflects that `main` converts every failure into a normal
return value instead of propagating an exception. -/
def main (parseBib : Str → Except Str (List BibEntry))
    (refs_text tex_text bib_text : Str) : Str × List Str :=
  let result := apa2tex parseBib refs_text tex_text bib_text
  (result.output, result.messages)

/-! ## Claim-side definition for the reference-lookup policy (C2)

The claim describes a three-tier fallback.  `get_reference_line_spec`
follows the claim's wording; the counterexample compares it with the
source's `get_reference_line_by_author_year`, and `lookupTwoTier` states
the policy the code actually implements. -/

/-- The matching policy as the claim words it: exact normalized equality,
else equality of the last whitespace tokens, else substring containment of
any token of the reference line's normalized author within the query. -/
def match_found_spec (frn tgt : Str) : Bool :=
  frn == tgt ||
  (match (splitWS frn).getLast?, (splitWS tgt).getLast? with
   | some a, some b => a == b
   | _, _ => false) ||
  (splitWS frn).any (fun term => containsSub term tgt)

/-- The claim-side line scan: identical to the source's scan except for the
matching policy. -/
def scanRefLinesSpec (tgt year_part : Str) : List Str → Option Str
  | [] => none
  | l :: ls =>
    if (trim l).isEmpty then scanRefLinesSpec tgt year_part ls
    else if match_found_spec (normalize_author (firstRefAuthor (parse_reference (trim l)).authors)) tgt
            ∧ (parse_reference (trim l)).year = year_part then some (trim l)
    else scanRefLinesSpec tgt year_part ls

/-- The reference lookup as described by claim C2. -/
def get_reference_line_spec (references target_author year_part : Str) : Option Str :=
  if references.isEmpty || target_author.isEmpty || year_part.isEmpty then none
  else scanRefLinesSpec (normalize_author target_author) year_part (splitOnChar '\n' references)

/-- The matching policy the code actually implements: the third tier of the
`if`/`elif` chain is reached only when one of the normalized strings has no
whitespace tokens, and then never succeeds, so only the first two tiers can
match. -/
def match_found_twoTier (frn tgt : Str) : Bool :=
  if tgt.isEmpty then false
  else if frn = tgt then true
  else if splitWS frn ≠ [] ∧ splitWS tgt ≠ [] then
    (splitWS frn).getLastD [] = (splitWS tgt).getLastD []
  else false

/-- The line scan with the two-tier policy. -/
def scanRefLinesTwoTier (tgt year_part : Str) : List Str → Option Str
  | [] => none
  | l :: ls =>
    if (trim l).isEmpty then scanRefLinesTwoTier tgt year_part ls
    else if match_found_twoTier (normalize_author (firstRefAuthor (parse_reference (trim l)).authors)) tgt
            ∧ (parse_reference (trim l)).year = year_part then some (trim l)
    else scanRefLinesTwoTier tgt year_part ls

/-- The reference lookup with the two-tier policy. -/
def lookupTwoTier (references target_author year_part : Str) : Option Str :=
  if references.isEmpty || target_author.isEmpty || year_part.isEmpty then none
  else scanRefLinesTwoTier (normalize_author target_author) year_part (splitOnChar '\n' references)

/-! ## Concrete fixtures used by several claims -/

/-- A one-line reference list resolving Smith (2020). -/
def smithRefLine : Str := "Smith, J. (2020). A Study of Things. Journal X.".toList

/-- The bibliography entry for Smith (2020); its title carries the
brace-delimited LaTeX grouping the resolver must strip. -/
def smithBib : BibEntry :=
  { ID := "smith2020".toList, title := some "\x7bA\x7d Study of Things".toList }

/-- A bibliography parser that always succeeds with the Smith entry. -/
def smithParse : Str → Except Str (List BibEntry) := fun _ => .ok [smithBib]

/-- A reference list whose only line has a corporate (multi-word) author. -/
def acmeRefs : Str := "Acme Global Systems (2020). The big report.".toList

/-! ## Shared lemmas about the character and whitespace helpers -/

theorem char_ofNat_toNat {m : Nat} (h : m.isValidChar) : (Char.ofNat m).toNat = m := by
  rw [Char.ofNat, dif_pos h]
  rfl

theorem uint32_le_iff (a b : UInt32) : (a ≤ b) ↔ a.toNat ≤ b.toNat := by
  simp [UInt32.le_def, BitVec.le_def, UInt32.toNat]

theorem toLower_not_upper (c : Char) : (c.toLower).isUpper = false := by
  simp only [Char.toLower, Char.isUpper]
  split
  next h =>
    have hv : (c.toNat + 32).isValidChar := by
      left
      omega
    have h2 : (Char.ofNat (c.toNat + 32)).toNat = c.toNat + 32 := char_ofNat_toNat hv
    have h3 : ¬((Char.ofNat (c.toNat + 32)).val ≤ 90) := by
      rw [uint32_le_iff]
      have e1 : (Char.ofNat (c.toNat + 32)).val.toNat = c.toNat + 32 := h2
      have e2 : (90 : UInt32).toNat = 90 := rfl
      rw [e1, e2]
      omega
    simp only [Bool.and_eq_false_iff, decide_eq_false_iff_not]
    right
    exact h3
  next h =>
    simp only [Char.toNat] at h
    simp only [Bool.and_eq_false_iff, decide_eq_false_iff_not, ge_iff_le]
    rw [uint32_le_iff, uint32_le_iff]
    have e1 : (65 : UInt32).toNat = 65 := rfl
    have e2 : (90 : UInt32).toNat = 90 := rfl
    rw [e1, e2]
    omega

theorem mem_collapseWS (l : Str) (c : Char) (h : c ∈ collapseWS l) :
    c = ' ' ∨ (c ∈ l ∧ c.isWhitespace = false) := by
  induction l using collapseWS.induct with
  | case1 => simp [collapseWS] at h
  | case2 d hw =>
    simp [collapseWS, hw] at h
    left
    exact h
  | case3 d hw =>
    simp only [Bool.not_eq_true] at hw
    simp [collapseWS, hw] at h
    subst h
    right
    simp_all
  | case4 d e rest hde ih =>
    rw [collapseWS, if_pos hde] at h
    rcases ih h with h1 | ⟨h2, h3⟩
    · left; exact h1
    · right; exact ⟨List.mem_cons_of_mem _ h2, h3⟩
  | case5 d e rest hde ih =>
    rw [collapseWS, if_neg hde] at h
    rcases List.mem_cons.mp h with h1 | h1
    · by_cases hw : d.isWhitespace
      · left; simp [hw] at h1; exact h1
      · right; simp [hw] at h1; subst h1; simp_all
    · rcases ih h1 with h2 | ⟨h2, h3⟩
      · left; exact h2
      · right; exact ⟨List.mem_cons_of_mem _ h2, h3⟩

theorem head_collapseWS (e : Char) (rest : Str) (he : e.isWhitespace = false) :
    (collapseWS (e :: rest)).head? = some e := by
  match rest with
  | [] => simp [collapseWS, he]
  | f :: rs =>
    rw [collapseWS, if_neg (by simp [he])]
    simp [he]

theorem chain'_collapseWS (l : Str) :
    List.Chain' (fun a b => ¬(a.isWhitespace = true ∧ b.isWhitespace = true)) (collapseWS l) := by
  induction l using collapseWS.induct with
  | case1 => simp [collapseWS]
  | case2 d hw => simp [collapseWS, hw]
  | case3 d hw => simp only [Bool.not_eq_true] at hw; simp [collapseWS, hw]
  | case4 d e rest hde ih => rw [collapseWS, if_pos hde]; exact ih
  | case5 d e rest hde ih =>
    rw [collapseWS, if_neg hde]
    simp only [Bool.and_eq_true, not_and] at hde
    refine ih.cons' ?_
    intro y hy
    by_cases hw : d.isWhitespace
    · have he : e.isWhitespace = false := by
        cases he' : e.isWhitespace
        · rfl
        · exact absurd he' (hde hw)
      rw [head_collapseWS e rest he] at hy
      simp only [Option.mem_def, Option.some_inj] at hy
      subst hy
      simp [he]
    · simp only [Bool.not_eq_true] at hw
      simp [hw]

theorem trimLeft_sublist (l : Str) : (trimLeft l).Sublist l :=
  (List.dropWhile_sublist _)

theorem trimRight_sublist (l : Str) : (trimRight l).Sublist l := by
  have h := List.dropWhile_sublist (l := l.reverse) Char.isWhitespace
  have h2 := h.reverse
  simpa [trimRight] using h2

theorem trim_sublist (l : Str) : (trim l).Sublist l :=
  (trimRight_sublist (trimLeft l)).trans (trimLeft_sublist l)

theorem trim_inside_of (l : Str) : (trim l).IsInfix l := by
  rcases (List.dropWhile_suffix (l := l) Char.isWhitespace) with ⟨p, hp⟩
  rcases (List.dropWhile_suffix (l := (trimLeft l).reverse) Char.isWhitespace) with ⟨q, hq⟩
  refine ⟨p, q.reverse, ?_⟩
  have h1 : trim l ++ q.reverse = trimLeft l := by
    have := congrArg List.reverse hq
    simpa [trim, trimRight, trimLeft] using this
  calc p ++ trim l ++ q.reverse = p ++ (trim l ++ q.reverse) := by rw [List.append_assoc]
    _ = p ++ trimLeft l := by rw [h1]
    _ = l := hp

theorem head_trim_not_ws (l : Str) (c : Char) (rest : Str) (h : trim l = c :: rest) :
    c.isWhitespace = false := by
  have h1 : (trimLeft l).head? = some c ∨ trimLeft l = [] := by
    rcases hl : trimLeft l with _ | ⟨d, ds⟩
    · right; rfl
    · left
      have hpre : (trim l).IsPrefix (trimLeft l) := by
        rcases (List.dropWhile_suffix (l := (trimLeft l).reverse) Char.isWhitespace) with ⟨q, hq⟩
        refine ⟨q.reverse, ?_⟩
        have := congrArg List.reverse hq
        simpa [trim, trimRight] using this
      rcases hpre with ⟨t, ht⟩
      rw [h] at ht
      rw [hl] at ht
      simp only [List.cons_append] at ht
      injection ht with h1 _
      rw [List.head?_cons, h1]
  rcases h1 with h1 | h1
  · have := List.head?_dropWhile_not Char.isWhitespace l
    rw [show l.dropWhile Char.isWhitespace = trimLeft l from rfl, h1] at this
    exact this
  · rw [trim, h1] at h
    simp [trimRight] at h

theorem getLast_trim_not_ws (l : Str) (d : Char) (h : trim l ≠ []) :
    ((trim l).getLastD d).isWhitespace = false := by
  have hrev : (trim l).reverse = (trimLeft l).reverse.dropWhile Char.isWhitespace := by
    simp [trim, trimRight]
  have hne : (trimLeft l).reverse.dropWhile Char.isWhitespace ≠ [] := by
    rw [← hrev]
    simpa using h
  have hhead := List.head?_dropWhile_not Char.isWhitespace (trimLeft l).reverse
  rcases hd : ((trimLeft l).reverse.dropWhile Char.isWhitespace).head? with _ | c
  · rw [List.head?_eq_none_iff] at hd
    exact absurd hd hne
  · rw [hd] at hhead
    have : (trim l).getLastD d = c := by
      have h1 : ((trim l).reverse).head? = some c := by rw [hrev, hd]
      rcases ht : trim l with _ | ⟨d, ds⟩
      · exact absurd ht h
      · rw [ht] at h1
        rw [List.head?_reverse] at h1
        simp only [List.getLastD_eq_getLast?, h1]
        rfl
    rw [this]
    exact hhead

theorem mem_normalize_title (s : Str) (c : Char) (h : c ∈ normalize_title s) :
    (isWordChar c = true ∨ c = ' ') ∧ c.isUpper = false := by
  rw [normalize_title] at h
  split at h
  · simp at h
  · have h1 := (trim_sublist _).mem h
    rcases mem_collapseWS _ _ h1 with h2 | ⟨h2, h3⟩
    · subst h2
      refine ⟨Or.inr rfl, by decide⟩
    · rcases List.mem_map.mp h2 with ⟨x, hx, hfx⟩
      rcases List.mem_map.mp hx with ⟨y, hy, hfy⟩
      rcases List.mem_map.mp hy with ⟨z, _, hfz⟩
      have hxup : x.isUpper = false := by
        rw [← hfy]
        rw [curlyToApos]
        split
        · decide
        · rw [← hfz]; exact toLower_not_upper z
      constructor
      · by_cases hcond : (isWordChar x || x.isWhitespace) = true
        · have hcx : c = x := by rw [← hfx]; simp [hcond]
          rcases Bool.or_eq_true _ _ |>.mp hcond with hw | hw
          · left; rw [hcx]; exact hw
          · exfalso
            rw [hcx] at h3
            rw [hw] at h3
            simp at h3
        · have hcx : c = ' ' := by rw [← hfx]; simp [hcond]
          right
          exact hcx
      · by_cases hcond : (isWordChar x || x.isWhitespace) = true
        · have hcx : c = x := by rw [← hfx]; simp [hcond]
          rw [hcx]
          exact hxup
        · have hcx : c = ' ' := by rw [← hfx]; simp [hcond]
          rw [hcx]
          decide

theorem curlyToApos_toLower (c : Char) :
    curlyToApos ((curlyToApos c).toLower) = curlyToApos c.toLower := by
  by_cases h1 : c = rsq
  · subst h1; decide
  · by_cases h2 : c = lsq
    · subst h2; decide
    · have : curlyToApos c = c := by
        rw [curlyToApos, if_neg]
        simp [h1, h2]
      rw [this]

theorem normalize_title_curly (s : Str) :
    normalize_title (s.map curlyToApos) = normalize_title s := by
  by_cases he : s.isEmpty
  · rw [List.isEmpty_iff] at he
    subst he
    rfl
  · rw [normalize_title, normalize_title, if_neg (by simpa using he), if_neg (by simpa using he)]
    simp only [List.map_map]
    have : curlyToApos ∘ Char.toLower ∘ curlyToApos = curlyToApos ∘ Char.toLower := by
      funext c
      exact curlyToApos_toLower c
    rw [this]

theorem chain'_normalize_title (s : Str) :
    List.Chain' (fun a b => ¬(a.isWhitespace = true ∧ b.isWhitespace = true)) (normalize_title s) := by
  rw [normalize_title]
  split
  · simp
  · exact List.Chain'.infix (chain'_collapseWS _) (trim_inside_of _)

theorem headD_normalize_title (s : Str) :
    ((normalize_title s).headD 'x').isWhitespace = false := by
  rw [normalize_title]
  split
  · decide
  · rcases ht : trim (collapseWS _) with _ | ⟨c, rest⟩
    · simp [List.headD]
    · have := head_trim_not_ws _ c rest ht
      simpa [List.headD] using this

theorem getLastD_normalize_title (s : Str) :
    ((normalize_title s).getLastD 'x').isWhitespace = false := by
  rw [normalize_title]
  split
  · decide
  · by_cases h : trim (collapseWS ((s.map Char.toLower).map curlyToApos |>.map
      (fun c => if isWordChar c || c.isWhitespace then c else ' '))) = []
    · rw [h]; decide
    · exact getLast_trim_not_ws _ 'x' h

/-- **C7.** For every input string, title normalization lower-cases it, maps
the curly single-quote variants to a plain apostrophe, strips every
character that is neither a word character nor whitespace, collapses
whitespace runs to a single space and trims; empty input yields the empty
string; consequently the normalization of `Smith's Theory` (plain
apostrophe) equals that of `Smith’s Theory` (curly quote).  The stripping
and collapsing are captured by the output invariants: every output
character is a non-uppercase word character or the single space, no two
adjacent output characters are whitespace, and the output neither starts
nor ends with whitespace.  The curly-quote property is proved for every
input, of which the claim's example is an instance. -/
theorem claim_C7_normalize_title :
    normalize_title [] = [] ∧
    (∀ s : Str, normalize_title (s.map curlyToApos) = normalize_title s) ∧
    (∀ s : Str, (normalize_title s).all
      (fun c => (isWordChar c || c == ' ') && !c.isUpper) = true) ∧
    (∀ s : Str, List.Chain'
      (fun a b => ¬(a.isWhitespace = true ∧ b.isWhitespace = true)) (normalize_title s)) ∧
    (∀ s : Str, ((normalize_title s).headD 'x').isWhitespace = false ∧
      ((normalize_title s).getLastD 'x').isWhitespace = false) ∧
    normalize_title ("Smith".toList ++ [apos] ++ "s Theory".toList) =
      normalize_title ("Smith".toList ++ [rsq] ++ "s Theory".toList) := by
  refine ⟨rfl, normalize_title_curly, ?_, chain'_normalize_title,
    fun s => ⟨headD_normalize_title s, getLastD_normalize_title s⟩, by decide⟩
  intro s
  rw [List.all_eq_true]
  intro c hc
  rcases mem_normalize_title s c hc with ⟨h1, h2⟩
  rcases h1 with h1 | h1
  · simp [h1, h2]
  · subst h1
    simp [h2, isWordChar]

/-! ## C4: bibliography parse failure and the non-throwing entry point -/

/-- **C4.** For every triple of input texts and every bibliography parser,
when parsing the bibliography fails the entry point returns the original
document text byte-identical together with exactly the single error
message.  The entry point is a total function of its inputs, which is the
embedding of "never propagates an exception to its caller". -/
theorem claim_C4_parse_failure (parseBib : Str → Except Str (List BibEntry))
    (refs tex bib e : Str) (h : parseBib bib = .error e) :
    main parseBib refs tex bib = (tex, ["Error parsing BibTeX file: ".toList ++ e]) := by
  simp [main, apa2tex, h]

/-- Witness for C4 at a concrete failing parser. -/
theorem claim_C4_parse_failure_witness :
    main (fun _ => .error "boom".toList) [] "doc".toList [] =
      ("doc".toList, ["Error parsing BibTeX file: boom".toList]) := by
  rw [claim_C4_parse_failure (fun _ => .error "boom".toList) [] "doc".toList [] "boom".toList rfl]
  rfl

/-! ## C3: the bibliography key resolver -/

theorem lookupTitle_sentinel (entries : List BibEntry) :
    lookupTitle entries "Title Not Found".toList = none := by
  induction entries with
  | nil => rfl
  | cons e es ih =>
    rw [lookupTitle]
    split
    · exact ih
    · split
      next t heq hcond =>
        exfalso
        have hmem : 'T' ∈ normalize_title (stripBraces t) := by
          rw [hcond]
          decide
        have := (mem_normalize_title _ _ hmem).2
        simp at this
      next => exact ih

/-- **C3 (counterexample).** The claim says the resolver fails immediately
when the parsed title is empty.  On the reference line `Smith (2020).` the
parsed normalized title is empty, yet the resolver returns the key of a
bibliography entry whose title normalizes to the empty string instead of
failing. -/
theorem claim_C3_counterexample :
    (parse_reference "Smith (2020).".toList).title = [] ∧
    get_reference_key "Smith (2020).".toList
      [{ ID := "weird".toList, title := some "???".toList }] = some "weird".toList := by
  constructor
  · rfl
  · rfl

/-- **C3 (amended).** The resolver parses the line and returns the
identifier of the first entry, in stored order, whose `title` — after
stripping braces and normalizing — equals the line's normalized title, and
not-found otherwise; a sentinel title can never match any entry (normalized
titles contain no uppercase letter), but an empty title is not rejected and
can match an entry whose title normalizes to the empty string.  The claim's
own example resolves as stated: the Smith line against the `smith2020`
entry with title `{A} Study of Things` yields `smith2020`. -/
theorem claim_C3_amended :
    (∀ (line : Str) (entries : List BibEntry),
      (parse_reference line).title = "Title Not Found".toList →
      get_reference_key line entries = none) ∧
    get_reference_key smithRefLine [smithBib] = some "smith2020".toList := by
  constructor
  · intro line entries h
    rw [get_reference_key]
    split
    · rfl
    · rw [h]
      exact lookupTitle_sentinel entries
  · rfl

/-- Witness for the conditional part of C3: a line without a year pattern
parses to the sentinel title, and the resolver reports not-found on it even
against an entry whose literal title is the sentinel text. -/
theorem claim_C3_amended_witness :
    (parse_reference "no year".toList).title = "Title Not Found".toList ∧
    get_reference_key "no year".toList
      [{ ID := "k".toList, title := some "Title Not Found".toList }] = none :=
  ⟨by decide, claim_C3_amended.1 "no year".toList
    [{ ID := "k".toList, title := some "Title Not Found".toList }] (by decide)⟩

/-! ## C1: unresolvable citations and diagnostics -/

/-- **C1 (counterexample).** On the document `(Doe, 1999)` with a reference
list that cannot resolve Doe, the output is unchanged and the counter
unaffected, but no message mentions `Doe` (or `1999`): the message list
holds only the generic warning, refuting the claim's diagnostic clause. -/
theorem claim_C1_counterexample :
    (apa2tex smithParse smithRefLine "(Doe, 1999)".toList []).output = "(Doe, 1999)".toList ∧
    (apa2tex smithParse smithRefLine "(Doe, 1999)".toList []).count = 0 ∧
    (apa2tex smithParse smithRefLine "(Doe, 1999)".toList []).messages.all
      (fun m => !(containsSub "Doe".toList m || containsSub "1999".toList m)) = true := by
  refine ⟨rfl, rfl, ?_⟩
  rfl

/-- **C1 (amended).** For the document `(Doe, 1999)` with no matching
reference line, the conversion returns the citation span unchanged and
leaves the counter at zero, but the returned message list contains only the
generic no-citations warning: the converter never emits a per-citation
diagnostic naming the citation's author or year. -/
theorem claim_C1_amended :
    apa2tex smithParse smithRefLine "(Doe, 1999)".toList [] =
      { output := "(Doe, 1999)".toList, messages := [warnMsg], count := 0 } := by
  rfl

/-! ## C2: the reference-lookup matching policy -/

/-- **C2 (counterexample).** Querying author `acme`, year `2020` against
the corporate reference line `Acme Global Systems (2020). The big report.`:
the claim's three-tier policy matches (the token `acme` of the reference's
normalized author is contained in the query), but the source returns
not-found — its third tier is unreachable because the second tier's
`elif` already captures every case in which both strings have tokens. -/
theorem claim_C2_counterexample :
    get_reference_line_by_author_year acmeRefs "acme".toList "2020".toList = none ∧
    get_reference_line_spec acmeRefs "acme".toList "2020".toList = some acmeRefs := by
  constructor
  · rfl
  · rfl

theorem splitWSAux_ne_nil : ∀ (s acc : Str), acc ≠ [] → splitWSAux acc s ≠ []
  | [], acc, h => by
    rw [splitWSAux]
    simp [h]
  | c :: rest, acc, h => by
    rw [splitWSAux]
    by_cases hw : c.isWhitespace
    · rw [if_pos hw]
      have hne : acc.isEmpty = false := by simpa using h
      rw [hne]
      simp
    · rw [if_neg hw]
      exact splitWSAux_ne_nil rest (c :: acc) (by simp)

theorem splitWS_trim_ne (u : Str) (h : trim u ≠ []) : splitWS (trim u) ≠ [] := by
  rcases ht : trim u with _ | ⟨c, rest⟩
  · exact absurd ht h
  · have hc := head_trim_not_ws u c rest ht
    rw [splitWS, splitWSAux, if_neg (by simp [hc])]
    exact splitWSAux_ne_nil rest [c] (by simp)

theorem normalize_author_shape (a : Str) :
    normalize_author a = [] ∨ ∃ u, normalize_author a = trim u := by
  by_cases he : a.isEmpty
  · left
    simp [normalize_author, he]
  · right
    exact ⟨collapseWS (((replaceAmp a).map Char.toLower).filter
      (fun c => c.isLower || c.isWhitespace || c == '&')), by
        simp only [normalize_author, if_neg he]⟩

theorem splitWS_normalize_author (a : Str) (h : normalize_author a ≠ []) :
    splitWS (normalize_author a) ≠ [] := by
  rcases normalize_author_shape a with h1 | ⟨u, h1⟩
  · exact absurd h1 h
  · rw [h1] at h ⊢
    exact splitWS_trim_ne u h

theorem match_found_eq_twoTier (frn tgt : Str)
    (htgt : tgt = [] ∨ splitWS tgt ≠ []) :
    match_found frn tgt = match_found_twoTier frn tgt := by
  rcases htgt with h | h
  · subst h
    rfl
  · rw [match_found, match_found_twoTier]
    by_cases h1 : tgt.isEmpty
    · rw [List.isEmpty_iff] at h1
      subst h1
      simp [splitWS, splitWSAux] at h
    · rw [if_neg h1, if_neg h1]
      by_cases h2 : frn = tgt
      · rw [if_pos h2, if_pos h2]
      · rw [if_neg h2, if_neg h2]
        by_cases h3 : splitWS frn ≠ [] ∧ splitWS tgt ≠ []
        · rw [if_pos h3, if_pos h3]
        · rw [if_neg h3, if_neg h3]
          have h4 : splitWS frn = [] := by
            rcases not_and_or.mp h3 with h4 | h4
            · simpa using h4
            · exact absurd h h4
          rw [h4]
          rfl

theorem scanRefLines_eq_twoTier (tgt y : Str) (htgt : tgt = [] ∨ splitWS tgt ≠ [])
    (ls : List Str) : scanRefLines tgt y ls = scanRefLinesTwoTier tgt y ls := by
  induction ls with
  | nil => rfl
  | cons l ls ih =>
    rw [scanRefLines, scanRefLinesTwoTier]
    rw [match_found_eq_twoTier _ _ htgt]
    split
    · exact ih
    · split
      · rfl
      · exact ih

/-- **C2 (amended).** For every reference-list text, queried author and
year, the lookup scans the non-blank lines in order and returns the first
line whose year matches exactly and whose first-author surname matches by:
exact normalized equality, or — when both normalized author strings have
whitespace tokens — equality of their last tokens.  The substring-
containment fallback of the claim is dead: the `elif` chain only reaches it
when one of the two normalized strings has no tokens, and it can never
succeed there, so it contributes no matches. -/
theorem claim_C2_amended (refs a y : Str) :
    get_reference_line_by_author_year refs a y = lookupTwoTier refs a y := by
  rw [get_reference_line_by_author_year, lookupTwoTier]
  split
  · rfl
  · refine scanRefLines_eq_twoTier _ _ ?_ _
    by_cases h : normalize_author a = []
    · left; exact h
    · right; exact splitWS_normalize_author a h

/-! ## C5: parse_reference on inputs without a year pattern -/

theorem matchYearHere_intro1 (a b c d : Char) (rest : Str)
    (h : a.isDigit ∧ b.isDigit ∧ c.isDigit ∧ d.isDigit) :
    (matchYearHere ('(' :: a :: b :: c :: d :: ')' :: rest)).isSome = true := by
  simp [matchYearHere.eq_def, h.1, h.2.1, h.2.2.1, h.2.2.2]

theorem matchYearHere_intro2 (a b c d e : Char) (rest : Str)
    (h : a.isDigit ∧ b.isDigit ∧ c.isDigit ∧ d.isDigit)
    (he : e.isLower = true) :
    (matchYearHere ('(' :: a :: b :: c :: d :: e :: ')' :: rest)).isSome = true := by
  by_cases hep : e = ')'
  · simp [matchYearHere.eq_def, h.1, h.2.1, h.2.2.1, h.2.2.2, hep]
  · simp [matchYearHere.eq_def, h.1, h.2.1, h.2.2.1, h.2.2.2, hep, he]

theorem matchYearHere_not_paren {c : Char} (h : ¬ c = '(') (t : Str) :
    matchYearHere (c :: t) = none := by
  rw [matchYearHere.eq_def]
  split
  next o a b cc d rest heq =>
    injection heq with h1 _
    rw [if_neg]
    intro hcond
    exact h (h1.trans hcond.1)
  next => rfl

theorem findYear_cons_isSome (c : Char) (rest : Str) :
    (findYear (c :: rest)).isSome =
      ((matchYearHere (c :: rest)).isSome || (findYear rest).isSome) := by
  rw [findYear]
  rcases h1 : matchYearHere (c :: rest) with _ | ⟨y, post⟩
  · rcases h2 : findYear rest with _ | ⟨pre, y2, post2⟩
    · simp
    · simp
  · simp

theorem matchYearHere_elim {t : Str} {x : Str × Str} (h : matchYearHere t = some x) :
    ∃ (a b c d : Char) (rest : Str),
      (a.isDigit ∧ b.isDigit ∧ c.isDigit ∧ d.isDigit) ∧
      (t = '(' :: a :: b :: c :: d :: ')' :: rest ∨
       ∃ e : Char, e.isLower = true ∧ t = '(' :: a :: b :: c :: d :: e :: ')' :: rest) := by
  rw [matchYearHere.eq_def] at h
  split at h
  next o a b c d rest =>
    split at h
    next hd =>
      obtain ⟨ho, h1, h2, h3, h4⟩ := hd
      subst ho
      split at h
      next x rest2 =>
        split at h
        next hx =>
          subst hx
          exact ⟨a, b, c, d, rest2, ⟨h1, h2, h3, h4⟩, Or.inl rfl⟩
        next hx =>
          split at h
          next y rest3 =>
            split at h
            next hy =>
              obtain ⟨hy1, hy2⟩ := hy
              subst hy2
              exact ⟨a, b, c, d, rest3, ⟨h1, h2, h3, h4⟩, Or.inr ⟨x, hy1, rfl⟩⟩
            next => exact absurd h (by simp)
          next => exact absurd h (by simp)
      next => exact absurd h (by simp)
    next => exact absurd h (by simp)
  next => exact absurd h (by simp)

theorem prefix_replaceAmp : ∀ (s p : Str), p <+: replaceAmp s → '&' ∉ p → p <+: s := by
  intro s
  induction s using replaceAmp.induct with
  | case1 =>
    intro p hp _
    simpa [replaceAmp] using hp
  | case2 c =>
    intro p hp _
    simpa [replaceAmp] using hp
  | case3 c1 c2 rest hcond ih =>
    intro p hp hamp
    rw [replaceAmp, if_pos hcond] at hp
    rcases p with _ | ⟨q, p'⟩
    · exact List.nil_prefix
    · rcases hp with ⟨t, ht⟩
      injection ht with h1 _
      exfalso
      apply hamp
      rw [← h1]
      exact List.mem_cons_self _ _
  | case4 c1 c2 rest hne ih =>
    intro p hp hamp
    rw [replaceAmp, if_neg hne] at hp
    rcases p with _ | ⟨q, p'⟩
    · exact List.nil_prefix
    · rcases hp with ⟨t, ht⟩
      injection ht with h1 h2
      subst h1
      have hp' : p' <+: replaceAmp (c2 :: rest) := ⟨t, h2⟩
      have := ih p' hp' (fun hm => hamp (List.mem_cons_of_mem _ hm))
      rcases this with ⟨t2, ht2⟩
      exact ⟨t2, by rw [List.cons_append, ht2]⟩

theorem digit_ne_amp {x : Char} (h : x.isDigit = true) : x ≠ '&' := by
  intro he
  rw [he] at h
  exact absurd h (by decide)

theorem lower_ne_amp {x : Char} (h : x.isLower = true) : x ≠ '&' := by
  intro he
  rw [he] at h
  exact absurd h (by decide)

theorem findYear_replaceAmp : ∀ s : Str,
    (findYear (replaceAmp s)).isSome = true → (findYear s).isSome = true := by
  intro s
  induction s using replaceAmp.induct with
  | case1 => intro h; simpa [replaceAmp] using h
  | case2 c => intro h; simpa [replaceAmp] using h
  | case3 c1 c2 rest hcond ih =>
    intro h
    obtain ⟨hc1, hc2⟩ := hcond
    subst hc1
    subst hc2
    rw [replaceAmp, if_pos ⟨rfl, rfl⟩] at h
    rw [findYear_cons_isSome, matchYearHere_not_paren (by decide)] at h
    simp only [Option.isSome_none, Bool.false_or] at h
    have h2 := ih h
    rw [findYear_cons_isSome, matchYearHere_not_paren (by decide),
        findYear_cons_isSome, matchYearHere_not_paren (by decide)]
    simp [h2]
  | case4 c1 c2 rest hne ih =>
    intro h
    rw [replaceAmp, if_neg hne] at h
    rw [findYear_cons_isSome] at h
    rcases Bool.or_eq_true _ _ |>.mp h with h1 | h1
    · rcases hm : matchYearHere (c1 :: replaceAmp (c2 :: rest)) with _ | x
      · rw [hm] at h1; simp at h1
      · obtain ⟨a, b, c, d, rest', hd, hshape⟩ := matchYearHere_elim hm
        rcases hshape with heq | ⟨e, he, heq⟩
        · injection heq with hc1p htail
          subst hc1p
          have hpre : [a, b, c, d, ')'] <+: replaceAmp (c2 :: rest) := ⟨rest', by simpa using htail.symm⟩
          have hnoamp : '&' ∉ [a, b, c, d, ')'] := by
            intro hm2
            simp only [List.mem_cons, List.not_mem_nil, or_false] at hm2
            rcases hm2 with h5 | h5 | h5 | h5 | h5
            · exact digit_ne_amp hd.1 h5.symm
            · exact digit_ne_amp hd.2.1 h5.symm
            · exact digit_ne_amp hd.2.2.1 h5.symm
            · exact digit_ne_amp hd.2.2.2 h5.symm
            · exact absurd h5 (by decide)
          have hps := prefix_replaceAmp (c2 :: rest) _ hpre hnoamp
          rcases hps with ⟨tail, htail2⟩
          rw [findYear_cons_isSome]
          have : c2 :: rest = a :: b :: c :: d :: ')' :: tail := by
            rw [← htail2]
            rfl
          rw [this]
          rw [Bool.or_eq_true]
          left
          exact matchYearHere_intro1 a b c d tail hd
        · injection heq with hc1p htail
          subst hc1p
          have hpre : [a, b, c, d, e, ')'] <+: replaceAmp (c2 :: rest) := ⟨rest', by simpa using htail.symm⟩
          have hnoamp : '&' ∉ [a, b, c, d, e, ')'] := by
            intro hm2
            simp only [List.mem_cons, List.not_mem_nil, or_false] at hm2
            rcases hm2 with h5 | h5 | h5 | h5 | h5 | h5
            · exact digit_ne_amp hd.1 h5.symm
            · exact digit_ne_amp hd.2.1 h5.symm
            · exact digit_ne_amp hd.2.2.1 h5.symm
            · exact digit_ne_amp hd.2.2.2 h5.symm
            · exact lower_ne_amp he h5.symm
            · exact absurd h5 (by decide)
          have hps := prefix_replaceAmp (c2 :: rest) _ hpre hnoamp
          rcases hps with ⟨tail, htail2⟩
          rw [findYear_cons_isSome]
          have : c2 :: rest = a :: b :: c :: d :: e :: ')' :: tail := by
            rw [← htail2]
            rfl
          rw [this]
          rw [Bool.or_eq_true]
          left
          exact matchYearHere_intro2 a b c d e tail hd he
    · have h2 := ih h1
      rw [findYear_cons_isSome, Bool.or_eq_true]
      right
      exact h2

/-- **C5.** For every input string that does not contain a parenthesized
4-digit-year pattern (the empty string included), both versions of
`parse_reference` — the live nested one, which first un-escapes `\&`, and
the shadowed module-level one — return exactly the sentinel triple.  The
un-escaping cannot create a year pattern: the pattern's characters are
parentheses, digits and lowercase letters, and the replacement only deletes
a backslash while leaving an ampersand in its place, so a pattern
occurrence after replacement maps back to one before it.  Totality of the
embedding reflects that parsing never raises. -/
theorem claim_C5_parse_reference (s : Str) (h : hasYearParen s = false) :
    parse_reference s = sentinelRef ∧ parse_reference_module s = sentinelRef := by
  have hs : findYear s = none := by
    rw [hasYearParen] at h
    rcases hr : findYear s with _ | v
    · rfl
    · rw [hr] at h
      simp at h
  have hra : findYear (replaceAmp s) = none := by
    rcases hr : findYear (replaceAmp s) with _ | v
    · rfl
    · exfalso
      have := findYear_replaceAmp s (by rw [hr]; rfl)
      rw [hs] at this
      simp at this
  constructor
  · rw [parse_reference]
    split
    · rfl
    · rw [hra]
  · rw [parse_reference_module]
    split
    · rfl
    · rw [hs]

/-- Witness for C5 at a concrete malformed input (year not parenthesized,
with an escaped ampersand). -/
theorem claim_C5_parse_reference_witness :
    hasYearParen "Doe et al 1999, \\& more".toList = false ∧
    parse_reference "Doe et al 1999, \\& more".toList = sentinelRef ∧
    parse_reference_module "Doe et al 1999, \\& more".toList = sentinelRef :=
  ⟨by decide,
   (claim_C5_parse_reference "Doe et al 1999, \\& more".toList (by decide)).1,
   (claim_C5_parse_reference "Doe et al 1999, \\& more".toList (by decide)).2⟩

/-! ## C6: partial resolution of a parenthetical citation group -/

theorem citFold (refs : Str) (entries : List BibEntry) :
    ∀ (l : List Str) (acc : List Str × Nat),
      l.foldl (citStep refs entries) acc =
        (acc.1 ++ l.filterMap (resolveSub refs entries),
         acc.2 + (l.filterMap (resolveSub refs entries)).length) := by
  intro l
  induction l with
  | nil => intro acc; simp
  | cons c cs ih =>
    intro acc
    rw [List.foldl_cons, List.filterMap_cons]
    rcases h : resolveSub refs entries c with _ | k
    · rw [show citStep refs entries acc c = acc by rw [citStep, h]]
      exact ih acc
    · rw [show citStep refs entries acc c = (acc.1 ++ [k], acc.2 + 1) by rw [citStep, h]]
      rw [ih]
      simp
      omega

theorem process_citation_characterization (refs : Str) (entries : List BibEntry)
    (original gc : Str) :
    process_citation refs entries original gc =
      (if hasFourDigits gc = false then (original, 0)
       else if ((List.splitOn ';' (stripEgPrefix gc)).map trim).filterMap
           (resolveSub refs entries) = [] then (original, 0)
       else if containsSub "e.g.".toList (original.map Char.toLower) = true then
         (egMacro (((List.splitOn ';' (stripEgPrefix gc)).map trim).filterMap
            (resolveSub refs entries)),
          (((List.splitOn ';' (stripEgPrefix gc)).map trim).filterMap
            (resolveSub refs entries)).length)
       else
         (citepMacro (((List.splitOn ';' (stripEgPrefix gc)).map trim).filterMap
            (resolveSub refs entries)),
          (((List.splitOn ';' (stripEgPrefix gc)).map trim).filterMap
            (resolveSub refs entries)).length)) := by
  rcases h4 : hasFourDigits gc with _ | _
  · simp [process_citation, h4]
  · by_cases hks : ((List.splitOn ';' (stripEgPrefix gc)).map trim).filterMap
        (resolveSub refs entries) = []
    · simp [process_citation, h4, citFold, hks]
    · by_cases heg : containsSub "e.g.".toList (original.map Char.toLower) = true
      · simp [process_citation, h4, citFold, hks, heg]
        split
        next hall =>
          rw [show List.filterMap (resolveSub refs entries ∘ trim)
              (List.splitOn ';' (stripEgPrefix gc)) = [] from
            List.filterMap_eq_nil_iff.mpr hall]
          rfl
        next => rfl
      · simp [process_citation, h4, citFold, hks, heg]
        split
        next hall =>
          rw [show List.filterMap (resolveSub refs entries ∘ trim)
              (List.splitOn ';' (stripEgPrefix gc)) = [] from
            List.filterMap_eq_nil_iff.mpr hall]
          rfl
        next => rfl

/-- **C6.** For every parenthetical citation group, sub-citations that fail
to resolve are skipped while resolution continues for the rest: the
resolved keys are exactly the `filterMap` of the resolver over the trimmed
semicolon-separated sub-citations, in original order.  If at least one key
resolves, the whole span is replaced by a single grouped `\citep` macro of
all resolved keys comma-joined (parenthesized behind `e.g., ` when the
original span mentions it) and the counter is incremented by the number of
resolved keys; if zero resolve (or the span lacks a 4-digit token), the
span is returned unmodified with a zero increment.  In particular,
`(Smith, 2020; Doe, 1999)` where only Smith resolves converts end-to-end to
`\citep{smith2020}` with the counter incremented by 1. -/
theorem claim_C6_group_partial :
    (∀ (refs : Str) (entries : List BibEntry) (original gc : Str),
      process_citation refs entries original gc =
        (if hasFourDigits gc = false then (original, 0)
         else if ((List.splitOn ';' (stripEgPrefix gc)).map trim).filterMap
             (resolveSub refs entries) = [] then (original, 0)
         else if containsSub "e.g.".toList (original.map Char.toLower) = true then
           (egMacro (((List.splitOn ';' (stripEgPrefix gc)).map trim).filterMap
              (resolveSub refs entries)),
            (((List.splitOn ';' (stripEgPrefix gc)).map trim).filterMap
              (resolveSub refs entries)).length)
         else
           (citepMacro (((List.splitOn ';' (stripEgPrefix gc)).map trim).filterMap
              (resolveSub refs entries)),
            (((List.splitOn ';' (stripEgPrefix gc)).map trim).filterMap
              (resolveSub refs entries)).length))) ∧
    apa2tex smithParse smithRefLine "(Smith, 2020; Doe, 1999)".toList [] =
      { output := "\\citep\x7bsmith2020\x7d".toList, messages := [successMsg 1], count := 1 } := by
  exact ⟨fun refs entries original gc =>
    process_citation_characterization refs entries original gc, rfl⟩

/-! ## Callback and pass lemmas shared by C9 and C8 -/


theorem ptc_cases (refs : Str) (entries : List BibEntry) (original g1 y : Str) :
    process_textual_citation refs entries original g1 y = (original, 0) ∨
    ∃ k, process_textual_citation refs entries original g1 y = (citetMacro k, 1) := by
  rw [process_textual_citation]
  split
  · left; rfl
  · split
    · left; rfl
    · split
      · right; exact ⟨_, rfl⟩
      · left; rfl

theorem ptc_zero (refs : Str) (entries : List BibEntry) (original g1 y : Str)
    (h : (process_textual_citation refs entries original g1 y).2 = 0) :
    (process_textual_citation refs entries original g1 y).1 = original := by
  rcases ptc_cases refs entries original g1 y with hc | ⟨k, hc⟩
  · rw [hc]
  · rw [hc] at h
    simp at h

theorem pc_zero (refs : Str) (entries : List BibEntry) (original gc : Str)
    (h : (process_citation refs entries original gc).2 = 0) :
    (process_citation refs entries original gc).1 = original := by
  rw [process_citation_characterization] at h ⊢
  split
  next h1 => rfl
  next h1 =>
    split
    next h2 => rfl
    next h2 =>
      split
      next h3 =>
        exfalso
        rw [if_neg h1, if_neg h2, if_pos h3] at h
        simp only [List.length_eq_zero] at h
        exact h2 h
      next h3 =>
        exfalso
        rw [if_neg h1, if_neg h2, if_neg h3] at h
        simp only [List.length_eq_zero] at h
        exact h2 h

theorem isPrefixOf_append {p l : Str} (h : p.isPrefixOf l = true) :
    l = p ++ l.drop p.length := by
  rcases List.isPrefixOf_iff_prefix.mp h with ⟨t, ht⟩
  subst ht
  rw [List.drop_left]

theorem tryPlain_decomp {s ws y rest : Str} (h : tryPlain s = some (ws, y, rest)) :
    s = ws ++ '(' :: (y ++ ')' :: rest) := by
  rw [tryPlain.eq_def] at h
  split at h
  next o a b c d rest' heq =>
    split at h
    next hcond =>
      obtain ⟨ho, _, _, _, _⟩ := hcond
      subst ho
      split at h
      next x rest2 =>
        split at h
        next hx =>
          subst hx
          injection h with h1
          injection h1 with hws h2
          injection h2 with hy hrest
          subst hws
          subst hy
          subst hrest
          calc s = s.takeWhile Char.isWhitespace ++ s.dropWhile Char.isWhitespace := by
                rw [List.takeWhile_append_dropWhile]
            _ = _ := by rw [heq]; simp
        next hx =>
          split at h
          next z rest3 =>
            split at h
            next hz =>
              obtain ⟨hxl, hz2⟩ := hz
              subst hz2
              injection h with h1
              injection h1 with hws h2
              injection h2 with hy hrest
              subst hws
              subst hy
              subst hrest
              calc s = s.takeWhile Char.isWhitespace ++ s.dropWhile Char.isWhitespace := by
                    rw [List.takeWhile_append_dropWhile]
                _ = _ := by rw [heq]; simp
            next => exact absurd h (by simp)
          next => exact absurd h (by simp)
      next => exact absurd h (by simp)
    next => exact absurd h (by simp)
  next => exact absurd h (by simp)

theorem tryEtal_decomp {s ep ws2 y rest : Str} (h : tryEtal s = some (ep, ws2, y, rest)) :
    s = ep ++ ws2 ++ '(' :: (y ++ ')' :: rest) := by
  rw [tryEtal] at h
  split at h
  next => exact absurd h (by simp)
  next hws =>
    split at h
    next hpre =>
      have hr1 := isPrefixOf_append hpre
      rw [show ("et al".toList.length) = 5 from rfl] at hr1
      split at h
      next r3 hcd =>
        rcases hp : tryPlain r3 with _ | ⟨ws', y', rest'⟩
        all_goals rw [hp] at h
        · exact absurd h (by simp)
        · injection h with h1
          injection h1 with hep h2
          injection h2 with hws2 h3
          injection h3 with hy hrest
          subst hep
          subst hws2
          subst hy
          subst hrest
          have hd := tryPlain_decomp hp
          calc s = s.takeWhile Char.isWhitespace ++ s.dropWhile Char.isWhitespace := by
                rw [List.takeWhile_append_dropWhile]
            _ = s.takeWhile Char.isWhitespace ++ ("et al".toList ++
                  (s.dropWhile Char.isWhitespace).drop 5) := by rw [← hr1]
            _ = _ := by rw [hcd, hd]; simp
      next r2 hne =>
        rcases hp : tryPlain ((s.dropWhile Char.isWhitespace).drop 5) with _ | ⟨ws', y', rest'⟩
        all_goals rw [hp] at h
        · exact absurd h (by simp)
        · injection h with h1
          injection h1 with hep h2
          injection h2 with hws2 h3
          injection h3 with hy hrest
          subst hep
          subst hws2
          subst hy
          subst hrest
          have hd := tryPlain_decomp hp
          calc s = s.takeWhile Char.isWhitespace ++ s.dropWhile Char.isWhitespace := by
                rw [List.takeWhile_append_dropWhile]
            _ = s.takeWhile Char.isWhitespace ++ ("et al".toList ++
                  (s.dropWhile Char.isWhitespace).drop 5) := by rw [← hr1]
            _ = _ := by rw [hd]; simp
    next => exact absurd h (by simp)

theorem tryTail_decomp {s ep ws2 y rest : Str} (h : tryTail s = some (ep, ws2, y, rest)) :
    s = ep ++ ws2 ++ '(' :: (y ++ ')' :: rest) := by
  rw [tryTail] at h
  split at h
  next v heq =>
    injection h with h1
    subst h1
    exact tryEtal_decomp heq
  next heq =>
    split at h
    next ws' y' rest' hp =>
      injection h with h1
      injection h1 with hep h2
      injection h2 with hws2 h3
      injection h3 with hy hrest
      subst hep
      subst hws2
      subst hy
      subst hrest
      simpa using tryPlain_decomp hp
    next => exact absurd h (by simp)



theorem narrGrow_decomp : ∀ (s accRev : Str) {g1 span y rest : Str},
    narrGrow accRev s = some (g1, span, y, rest) → span ++ rest = accRev.reverse ++ s := by
  intro s
  induction s with
  | nil => intro accRev g1 span y rest h; simp [narrGrow] at h
  | cons c cs ih =>
    intro accRev g1 span y rest h
    rw [narrGrow] at h
    split at h
    · rcases ht : tryTail cs with _ | ⟨ep, ws2, yy, rst⟩
      all_goals rw [ht] at h
      · have := ih (c :: accRev) h
        rw [this]
        simp
      · injection h with h1
        injection h1 with hg1 h2
        injection h2 with hspan h3
        injection h3 with hy hrest
        subst hg1
        subst hspan
        subst hy
        subst hrest
        have hd := tryTail_decomp ht
        rw [hd]
        simp
    · exact absurd h (by simp)

theorem matchNarrAt_decomp {s g1 span y rest : Str}
    (h : matchNarrAt s = some (g1, span, y, rest)) : span ++ rest = s := by
  rcases s with _ | ⟨c, cs⟩
  · simp [matchNarrAt] at h
  · rw [matchNarrAt] at h
    split at h
    · have := narrGrow_decomp cs [c] h
      simpa using this
    · exact absurd h (by simp)

theorem reSubNarr_zero (refs : Str) (entries : List BibEntry) : ∀ (fuel : Nat) (s : Str),
    (reSubNarrF refs entries fuel s).2 = 0 → (reSubNarrF refs entries fuel s).1 = s := by
  intro fuel
  induction fuel with
  | zero =>
    intro s _
    rcases s with _ | ⟨c, rest⟩ <;> rfl
  | succ n ih =>
    intro s h
    rcases s with _ | ⟨c, rest⟩
    · rfl
    · rw [reSubNarrF] at h ⊢
      revert h
      cases hm : matchNarrAt (c :: rest) with
      | none =>
        intro h
        dsimp only at h ⊢
        rw [ih rest h]
      | some v =>
        rcases v with ⟨g1, span, y, rst⟩
        intro h
        dsimp only at h ⊢
        have h2 : (process_textual_citation refs entries span g1 y).2 = 0 := by omega
        have h3 : (reSubNarrF refs entries n rst).2 = 0 := by omega
        rw [ptc_zero refs entries span g1 y h2, ih rst h3]
        exact matchNarrAt_decomp hm

theorem reSubParen_zero (refs : Str) (entries : List BibEntry) : ∀ (fuel : Nat) (s : Str),
    (reSubParenF refs entries fuel s).2 = 0 → (reSubParenF refs entries fuel s).1 = s := by
  intro fuel
  induction fuel with
  | zero =>
    intro s _
    rcases s with _ | ⟨c, rest⟩ <;> rfl
  | succ n ih =>
    intro s h
    rcases s with _ | ⟨c, rest⟩
    · rfl
    · rw [reSubParenF] at h ⊢
      split at h
      next hcond =>
        obtain ⟨hc, hrun, hdrop⟩ := hcond
        rw [if_pos ⟨hc, hrun, hdrop⟩]
        dsimp only at h ⊢
        have h2 : (process_citation refs entries
            ('(' :: rest.takeWhile (fun x => x != ')') ++ [')'])
            (rest.takeWhile (fun x => x != ')'))).2 = 0 := by omega
        have h3 : (reSubParenF refs entries n
            (rest.dropWhile (fun x => x != ')')).tail).2 = 0 := by omega
        rw [pc_zero refs entries _ _ h2, ih _ h3]
        subst hc
        rcases hd : rest.dropWhile (fun x => x != ')') with _ | ⟨d0, tail⟩
        · exact absurd hd hdrop
        · have hd0 : d0 = ')' := by
            have hw := List.head?_dropWhile_not (fun x => x != ')') rest
            rw [hd] at hw
            simpa using hw
          subst hd0
          have hsplit : rest.takeWhile (fun x => x != ')') ++ ')' :: tail = rest := by
            rw [← hd]
            exact List.takeWhile_append_dropWhile _ _
          conv_rhs => rw [← hsplit]
          simp
      next hcond =>
        rw [if_neg hcond]
        dsimp only at h ⊢
        rw [ih rest h]



/-! ## C9: zero conversions means byte-identical output -/

/-- **C9.** Whenever the bibliography parses successfully and the
conversion finishes with a conversion count of zero, the returned output
text is byte-identical to the input document: every rewrite callback
returns its original matched span unchanged unless it resolved at least one
key and incremented the counter (`ptc_zero`, `pc_zero`), and a pass whose
total increment is zero is the identity on the text. -/
theorem claim_C9_no_conversion_identity (parseBib : Str → Except Str (List BibEntry))
    (refs tex bib : Str) (entries : List BibEntry)
    (hok : parseBib bib = .ok entries)
    (h0 : (apa2tex parseBib refs tex bib).count = 0) :
    (apa2tex parseBib refs tex bib).output = tex := by
  rw [apa2tex, hok] at h0 ⊢
  dsimp only at h0 ⊢
  have h1 : (reSubNarrF refs entries tex.length tex).2 = 0 := by omega
  have ht1 := reSubNarr_zero refs entries tex.length tex h1
  rw [ht1] at h0 ⊢
  have h2 : (reSubParenF refs entries tex.length tex).2 = 0 := by omega
  exact reSubParen_zero refs entries tex.length tex h2

/-- Witness for C9 at a concrete parser and document. -/
theorem claim_C9_no_conversion_identity_witness :
    (apa2tex (fun _ => .ok []) [] "hello".toList []).output = "hello".toList :=
  claim_C9_no_conversion_identity (fun _ => .ok []) [] "hello".toList [] [] rfl (by rfl)

theorem tryPlain_paren {s : Str} {x : Str × Str × Str} (h : tryPlain s = some x) :
    '(' ∈ s := by
  rw [tryPlain.eq_def] at h
  split at h
  next o a b c d rest heq =>
    split at h
    next hcond =>
      have hmem : '(' ∈ s.dropWhile Char.isWhitespace := by
        rw [heq, hcond.1]
        exact List.mem_cons_self _ _
      exact (List.dropWhile_sublist _).mem hmem
    next => exact absurd h (by simp)
  next => exact absurd h (by simp)

theorem tryEtal_paren {s : Str} {x : Str × Str × Str × Str} (h : tryEtal s = some x) :
    '(' ∈ s := by
  rw [tryEtal] at h
  split at h
  next => exact absurd h (by simp)
  next =>
    split at h
    next =>
      split at h
      next r3 hcd =>
        rcases hp : tryPlain r3 with _ | v
        all_goals rw [hp] at h
        · exact absurd h (by simp)
        · have h1 : '(' ∈ r3 := tryPlain_paren hp
          have h2 : '(' ∈ (s.dropWhile Char.isWhitespace).drop 5 := by
            rw [hcd]
            exact List.mem_cons_of_mem _ h1
          exact (List.dropWhile_sublist _).mem ((List.drop_sublist _ _).mem h2)
      next r2 hne =>
        rcases hp : tryPlain ((s.dropWhile Char.isWhitespace).drop 5) with _ | v
        all_goals rw [hp] at h
        · exact absurd h (by simp)
        · have h1 := tryPlain_paren hp
          exact (List.dropWhile_sublist _).mem ((List.drop_sublist _ _).mem h1)
    next => exact absurd h (by simp)

theorem tryTail_paren {s : Str} {x : Str × Str × Str × Str} (h : tryTail s = some x) :
    '(' ∈ s := by
  rw [tryTail] at h
  split at h
  next v heq => exact tryEtal_paren heq
  next heq =>
    split at h
    next ws' y' rest' hp => exact tryPlain_paren hp
    next => exact absurd h (by simp)

theorem narrGrow_paren : ∀ (s accRev : Str) {x : Str × Str × Str × Str},
    narrGrow accRev s = some x → '(' ∈ s := by
  intro s
  induction s with
  | nil => intro accRev x h; simp [narrGrow] at h
  | cons c cs ih =>
    intro accRev x h
    rw [narrGrow] at h
    split at h
    · rcases ht : tryTail cs with _ | v
      all_goals rw [ht] at h
      · exact List.mem_cons_of_mem _ (ih (c :: accRev) h)
      · exact List.mem_cons_of_mem _ (tryTail_paren ht)
    · exact absurd h (by simp)

theorem matchNarrAt_paren {s : Str} {x : Str × Str × Str × Str}
    (h : matchNarrAt s = some x) : '(' ∈ s := by
  rcases s with _ | ⟨c, cs⟩
  · simp [matchNarrAt] at h
  · rw [matchNarrAt] at h
    split at h
    · exact List.mem_cons_of_mem _ (narrGrow_paren cs [c] h)
    · exact absurd h (by simp)

theorem reSubNarr_no_paren (refs : Str) (entries : List BibEntry) :
    ∀ (fuel : Nat) (s : Str), '(' ∉ s →
      reSubNarrF refs entries fuel s = (s, 0) := by
  intro fuel
  induction fuel with
  | zero => intro s _; rcases s with _ | ⟨c, rest⟩ <;> rfl
  | succ n ih =>
    intro s hs
    rcases s with _ | ⟨c, rest⟩
    · rfl
    · rw [reSubNarrF]
      cases hm : matchNarrAt (c :: rest) with
      | none =>
        rw [ih rest (fun hmem => hs (List.mem_cons_of_mem _ hmem))]
      | some v => exact absurd (matchNarrAt_paren hm) hs

theorem reSubParen_no_paren (refs : Str) (entries : List BibEntry) :
    ∀ (fuel : Nat) (s : Str), '(' ∉ s →
      reSubParenF refs entries fuel s = (s, 0) := by
  intro fuel
  induction fuel with
  | zero => intro s _; rcases s with _ | ⟨c, rest⟩ <;> rfl
  | succ n ih =>
    intro s hs
    rcases s with _ | ⟨c, rest⟩
    · rfl
    · rw [reSubParenF]
      rw [if_neg]
      · rw [ih rest (fun hmem => hs (List.mem_cons_of_mem _ hmem))]
      · intro hcond
        exact hs (by rw [hcond.1]; exact List.mem_cons_self _ _)



theorem mem_intercalate_comma (ks : List Str) (c : Char)
    (h : c ∈ List.intercalate [','] ks) : c = ',' ∨ ∃ k ∈ ks, c ∈ k := by
  induction ks with
  | nil => simp [List.intercalate] at h
  | cons k ks ih =>
    cases ks with
    | nil =>
      simp [List.intercalate] at h
      exact Or.inr ⟨k, by simp, h⟩
    | cons k2 ks2 =>
      have hstep : List.intercalate [','] (k :: k2 :: ks2) =
          k ++ ',' :: List.intercalate [','] (k2 :: ks2) := by
        simp [List.intercalate, List.intersperse]
      rw [hstep] at h
      rcases List.mem_append.mp h with h1 | h1
      · exact Or.inr ⟨k, by simp, h1⟩
      · rcases List.mem_cons.mp h1 with h2 | h2
        · exact Or.inl h2
        · rcases ih h2 with h3 | ⟨k3, hk3, hc3⟩
          · exact Or.inl h3
          · exact Or.inr ⟨k3, List.mem_cons_of_mem _ hk3, hc3⟩

theorem citep_no_paren (ks : List Str) (hks : ∀ k ∈ ks, '(' ∉ k) :
    '(' ∉ citepMacro ks := by
  intro hm
  rw [citepMacro] at hm
  rcases List.mem_append.mp hm with h1 | h1
  · rcases List.mem_append.mp h1 with h2 | h2
    · rcases List.mem_append.mp h2 with h3 | h3
      · exact absurd h3 (by decide)
      · exact absurd h3 (by decide)
    · rcases mem_intercalate_comma ks '(' h2 with h3 | ⟨k, hk, hc⟩
      · exact absurd h3 (by decide)
      · exact hks k hk hc
  · exact absurd h1 (by decide)

theorem citet_no_paren (k : Str) (hk : '(' ∉ k) : '(' ∉ citetMacro k := by
  intro hm
  rw [citetMacro] at hm
  rcases List.mem_append.mp hm with h1 | h1
  · rcases List.mem_append.mp h1 with h2 | h2
    · exact absurd h2 (by decide)
    · exact hk h2
  · exact absurd h1 (by decide)

/-! ## C8: already-generated macros are stable under a re-run -/

/-- **C8.** A generated `\citep{...}` or `\citet{...}` macro (whose keys,
being BibTeX identifiers, contain no parenthesis) matches neither the
narrative-citation pattern nor the parenthetical-citation rewrite
conditions: both regex passes require a literal `(` inside the match, the
macro text contains none, so re-running the converter's passes over the
macro — with any reference list and bibliography — returns it unchanged
with a zero count. -/
theorem claim_C8_macros_stable (refs : Str) (entries : List BibEntry) (ks : List Str) (k : Str)
    (fuel1 fuel2 : Nat) (hks : ∀ key ∈ ks, '(' ∉ key) (hk : '(' ∉ k) :
    reSubNarrF refs entries fuel1 (citepMacro ks) = (citepMacro ks, 0) ∧
    reSubParenF refs entries fuel1 (citepMacro ks) = (citepMacro ks, 0) ∧
    reSubNarrF refs entries fuel2 (citetMacro k) = (citetMacro k, 0) ∧
    reSubParenF refs entries fuel2 (citetMacro k) = (citetMacro k, 0) :=
  ⟨reSubNarr_no_paren refs entries fuel1 _ (citep_no_paren ks hks),
   reSubParen_no_paren refs entries fuel1 _ (citep_no_paren ks hks),
   reSubNarr_no_paren refs entries fuel2 _ (citet_no_paren k hk),
   reSubParen_no_paren refs entries fuel2 _ (citet_no_paren k hk)⟩

/-- Witness for C8 at concrete macros and fuel. -/
theorem claim_C8_macros_stable_witness :
    reSubNarrF smithRefLine [smithBib] 20 (citepMacro ["smith2020".toList]) =
      (citepMacro ["smith2020".toList], 0) ∧
    reSubParenF smithRefLine [smithBib] 20 (citepMacro ["smith2020".toList]) =
      (citepMacro ["smith2020".toList], 0) ∧
    reSubNarrF smithRefLine [smithBib] 20 (citetMacro "smith2020".toList) =
      (citetMacro "smith2020".toList, 0) ∧
    reSubParenF smithRefLine [smithBib] 20 (citetMacro "smith2020".toList) =
      (citetMacro "smith2020".toList, 0) :=
  claim_C8_macros_stable smithRefLine [smithBib] ["smith2020".toList] "smith2020".toList 20 20
    (by decide) (by decide)

/-! ## C10: discourse markers are swallowed by narrative conversion -/

/-- **C10.** When a narrative citation converts successfully and the
matched span begins with a discourse-marker phrase from the stoplist, the
entire span — marker words included — is replaced by the bare
`\citet{key}` macro: on `However, Smith (2020) showed X.` the narrative
pattern matches `However, Smith (2020)` whole, the marker is stripped only
from the author phrase used for lookup, and the output
`\citet{smith2020} showed X.` no longer contains `However`. -/
theorem claim_C10_discourse_marker_deleted :
    apa2tex smithParse smithRefLine "However, Smith (2020) showed X.".toList [] =
      { output := "\\citet\x7bsmith2020\x7d showed X.".toList,
        messages := [successMsg 1], count := 1 } ∧
    containsSub "However".toList "\\citet\x7bsmith2020\x7d showed X.".toList = false := by
  constructor
  · rfl
  · rfl

end CitConv
